import Mathlib

/-!
Shallow embedding of the declaration-extraction and structural-diff
classification engine of the abicheck package (src/abicheck.go, src/ast.go).

The Go AST (go/ast) is embedded as inductive types carrying exactly the
payload the checker inspects; the go/types resolver (types.Info) is an
oracle structure whose fields model ObjectOf/TypeOf/Uses, with semantic
types abstracted as a nominal identity (uid, for types.Identical), a
canonical textual form (for types.TypeString) and an interface flag
(for types.IsInterface).

The mutual recursion of exprEqual / checkChan / checkFunc /
checkInterface / diffFields in the source is resolved with an explicit
fuel parameter consumed by exprEqual: every other routine is defined
once, parameterized over the expression-equality function (and, for
checkFunc, over the interface check), and the DeclChecker wrappers tie
the knot at a given fuel.  At any fuel n+1 the wrappers compute exactly
what the Go functions compute whenever the Go recursion reaches depth
at most n.
-/

namespace Abicheck

/-- Channel direction, modelling ast.ChanDir: SEND, RECV, or the
bidirectional SEND|RECV value the parser produces for a plain chan. -/
inductive ChanDir where
| send : ChanDir
| recv : ChanDir
| both : ChanDir
deriving DecidableEq, BEq

mutual

/-- Type expressions, modelling the ast.Expr shapes the checker inspects:
Ident, SelectorExpr, StarExpr, Ellipsis, ChanType, FuncType, StructType,
InterfaceType, ArrayType (nil Len meaning a slice) and MapType. -/
inductive Expr where
| ident (name : String) : Expr
| selector (x : Expr) (sel : String) : Expr
| star (x : Expr) : Expr
| ellipsis (elt : Expr) : Expr
| chan (dir : ChanDir) (value : Expr) : Expr
| func (params : List Field) (results : Option (List Field)) : Expr
| structType (fields : List Field) : Expr
| interfaceType (methods : List Field) : Expr
| arrayType (len : Option Expr) (elt : Expr) : Expr
| mapType (key : Expr) (value : Expr) : Expr

/-- ast.Field: a struct/interface member or a parameter/result entry.
Doc, Tag and Comment are never inspected by the checker and are omitted. -/
inductive Field where
| mk (names : List String) (type : Expr) : Field

end

/-- Field.Names accessor. -/
def Field.names : Field → List String
| .mk ns _ => ns

/-- Field.Type accessor. -/
def Field.type : Field → Expr
| .mk _ t => t

/-- The token of a GenDecl: var, const, type or import. -/
inductive Token where
| tvar : Token
| tconst : Token
| ttype : Token
| timport : Token

/-- ast.Spec: ValueSpec (var/const, with optional type and initializer
values), TypeSpec, or ImportSpec. -/
inductive Spec where
| valueSpec (names : List String) (typ : Option Expr) (values : List Expr) : Spec
| typeSpec (name : String) (typ : Expr) : Spec
| importSpec : Spec

/-- ast.Decl restricted to the two shapes the package handles: GenDecl
and FuncDecl.  Bodies are never represented (the extractor nils them and
the checker never reads them). -/
inductive Decl where
| genDecl (tok : Token) (specs : List Spec) : Decl
| funcDecl (recv : Option (List Field)) (name : String) (params : List Field)
    (results : Option (List Field)) : Decl

/-- The change classification labels (constants None, NonBreaking,
Breaking of ast.go). -/
def None : String := "no change"

/-- "non-breaking change". -/
def NonBreaking : String := "non-breaking change"

/-- "breaking change". -/
def Breaking : String := "breaking change"

/-- DeclChange: a classification label with a message. -/
structure DeclChange where
change : String
msg : String
deriving DecidableEq

/-- nonBreaking of ast.go. -/
def nonBreaking (msg : String) : DeclChange := ⟨NonBreaking, msg⟩

/-- breaking of ast.go. -/
def breaking (msg : String) : DeclChange := ⟨Breaking, msg⟩

/-- none() of ast.go (renamed: Option.none is pervasive in Lean). -/
def noChange : DeclChange := ⟨None, ""⟩

/-- A semantic type as the go/types oracle reports it: a nominal identity
(uid models types.Identical within and across the two resolvers), the
canonical string types.TypeString(t, nil), and types.IsInterface. -/
structure SemType where
uid : Nat
str : String
isIntf : Bool

/-- A types.Object as used by Check on value specs: its Type() and its
String() form. -/
structure Obj where
type : SemType
str : String

/-- The outcome of re-parsing obj.String() in exprInterfaceType: either
the method list of the parsed interface type, or a parse failure. -/
inductive UseParse where
| methods (ms : List Field) : UseParse
| failed : UseParse

/-- The types.Info oracle: ObjectOf (keyed by identifier name), TypeOf
(nil when the expression is not in the Types map), and Uses (keyed by
the selected identifier's name, carrying the re-parse outcome). -/
structure Info where
objectOf : String → Obj
typeOf : Expr → Option SemType
uses : String → Option UseParse

/-- DeclChecker of ast.go: the two revisions' resolvers. -/
structure DeclChecker where
binfo : Info
ainfo : Info

/-- types.Identical over possibly-nil types (TypeOf results): Go's
identical(x, y) answers true when both are nil (x == y) and false when
exactly one is. -/
def identicalOpt : Option SemType → Option SemType → Bool
| some x, some y => x.uid == y.uid
| Option.none, Option.none => true
| _, _ => false

/-- types.TypeString(t, nil) over a possibly-nil TypeOf result. -/
def typeStringOpt : Option SemType → String
| some t => t.str
| Option.none => "<nil>"

/-- ast.IsExported: the first character is upper case (empty names are
not exported). -/
def isExported (name : String) : Bool :=
match name.data with
| [] => false
| c :: _ => c.isUpper

/-- fieldKey of ast.go: the first name when the field has names, else
the decimal form of its position. -/
def fieldKey (f : Field) (i : Nat) : String :=
match f.names with
| n :: _ => n
| [] => toString i

/-- stripNames of ast.go: copy a field list with the names nilled. -/
def stripNames (fields : List Field) : List Field :=
fields.map (fun f => Field.mk [] f.type)

/-- Association list with Go-map key semantics (string keys). -/
abbrev AList (α : Type) := List (String × α)

/-- Go map assignment m[k] = v: replace the binding if present, else
append. -/
def aInsert {α : Type} : AList α → String → α → AList α
| [], k, v => [(k, v)]
| p :: rest, k, v => if p.1 == k then (k, v) :: rest else p :: aInsert rest k v

/-- Go map lookup m[k]. -/
def aLookup {α : Type} : AList α → String → Option α
| [], _ => Option.none
| p :: rest, k => if p.1 == k then some p.2 else aLookup rest k

/-- Go delete(m, k). -/
def aDelete {α : Type} (m : AList α) (k : String) : AList α :=
m.filter (fun p => p.1 != k)

/-- The keys of an association list. -/
def aKeys {α : Type} (m : AList α) : List String := m.map (fun p => p.1)

/-- reflect.TypeOf equality on expressions: the same AST node shape. -/
def exprShapeEq : Expr → Expr → Bool
| .ident _, .ident _ => true
| .selector _ _, .selector _ _ => true
| .star _, .star _ => true
| .ellipsis _, .ellipsis _ => true
| .chan _ _, .chan _ _ => true
| .func _ _, .func _ _ => true
| .structType _, .structType _ => true
| .interfaceType _, .interfaceType _ => true
| .arrayType _ _, .arrayType _ _ => true
| .mapType _ _, .mapType _ _ => true
| _, _ => false

/-- reflect.TypeOf equality on specs. -/
def specShapeEq : Spec → Spec → Bool
| .valueSpec _ _ _, .valueSpec _ _ _ => true
| .typeSpec _ _, .typeSpec _ _ => true
| .importSpec, .importSpec => true
| _, _ => false

/-- reflect.TypeOf equality on declarations. -/
def declShapeEq : Decl → Decl → Bool
| .genDecl _ _, .genDecl _ _ => true
| .funcDecl _ _ _ _, .funcDecl _ _ _ _ => true
| _, _ => false

/-- diffResult of ast.go. -/
structure diffResult where
added : List Field
removed : List Field
modified : List (Field × Field)

/-- Changed(): any added, removed or modified field. -/
def diffResult.Changed (d : diffResult) : Bool :=
!d.added.isEmpty || !d.removed.isEmpty || !d.modified.isEmpty

/-- Added(). -/
def diffResult.Added (d : diffResult) : Bool := !d.added.isEmpty

/-- Removed(). -/
def diffResult.Removed (d : diffResult) : Bool := !d.removed.isEmpty

/-- Modified(). -/
def diffResult.Modified (d : diffResult) : Bool := !d.modified.isEmpty

/-- removeModified of ast.go, keeping the elements whose position (from
start index i) is not listed.  The Go code removes the (distinct,
ascending, in-range) indices from highest to lowest, which keeps exactly
the unlisted positions. -/
def removeModifiedFrom (rmi : List Nat) : List (Field × Field) → Nat → List (Field × Field)
| [], _ => []
| p :: rest, i =>
  if rmi.contains i then removeModifiedFrom rmi rest (i + 1)
  else p :: removeModifiedFrom rmi rest (i + 1)

/-- removeModified entry point (positions count from 0). -/
def removeModified (mods : List (Field × Field)) (rmi : List Nat) : List (Field × Field) :=
removeModifiedFrom rmi mods 0

/-- The index-collection loop of RemoveUnexported: positions (from i) of
modified pairs whose before-field name is not exported.  The Go code
reads mod[0].Names[0] unconditionally and PANICS when a modified pair's
before field carries no names — reachable from an embedded struct field
whose type changed; the panic is modelled as Option.none. -/
def unexportedIdxFrom : List (Field × Field) → Nat → Option (List Nat)
| [], _ => some []
| p :: rest, i =>
  match Field.names p.1 with
  | [] => Option.none
  | n :: _ =>
    match unexportedIdxFrom rest (i + 1) with
    | Option.none => Option.none
    | some idxs => some (if !isExported n then i :: idxs else idxs)

/-- RemoveUnexported of ast.go: drop the modified pairs whose before
name is unexported.  Option.none models the Names[0] panic on a
name-less modified pair (the returned msg and err of the source are
always empty and nil whenever the function returns at all). -/
def diffResult.RemoveUnexported (d : diffResult) : Option diffResult :=
match unexportedIdxFrom d.modified 0 with
| Option.none => Option.none
| some idxs => some ⟨d.added, d.removed, removeModified d.modified idxs⟩

/-- RemoveVariadicCompatible of ast.go: consume the diff and report a
message when the only difference is (a) one added variadic parameter, or
(b) one parameter changed to a variadic of the identical element type. -/
def removeVariadicCompatible (binfo ainfo : Info) (d : diffResult) : String × diffResult :=
let second : String × diffResult :=
  if d.added.isEmpty && d.removed.isEmpty && (d.modified.length == 1) then
    match d.modified.head? with
    | some p =>
      match p.2.type with
      | .ellipsis elt =>
        if identicalOpt (binfo.typeOf p.1.type) (ainfo.typeOf elt) then
          ("change parameter to variadic", ⟨d.added, d.removed, []⟩)
        else ("", d)
      | _ => ("", d)
    | Option.none => ("", d)
  else ("", d)
if (d.added.length == 1) && !d.Removed && !d.Modified then
  match d.added.head? with
  | some f =>
    match f.type with
    | .ellipsis _ => ("added a variadic parameter", ⟨[], d.removed, d.modified⟩)
    | _ => second
  | Option.none => second
else second

/-- exprInterfaceType of ast.go: extract the selected identifier from
the expression (StarExpr over SelectorExpr/Ident, SelectorExpr, Ident;
a StarExpr over anything else leaves a nil identifier whose Uses lookup
fails; any other shape is "unknown interface type"), look it up in Uses,
and return the re-parsed interface's method list.  The dynamic parse
error message of the source is abstracted to "could not parse". -/
def exprInterfaceType (uses : String → Option UseParse) : Expr → Except String (List Field)
| e =>
  let sel : Option (Option String) :=
    match e with
    | .star (.selector _ s) => some (some s)
    | .star (.ident n) => some (some n)
    | .star _ => some Option.none
    | .selector _ s => some (some s)
    | .ident n => some (some n)
    | _ => Option.none
  match sel with
  | Option.none => .error "unknown interface type"
  | some Option.none => .error "could not find interface in uses"
  | some (some s) =>
    match uses s with
    | Option.none => .error "could not find interface in uses"
    | some .failed => .error "could not parse"
    | some (.methods ms) => .ok ms

/-- The loop of RemoveInterfaceCompatible: walk the modified pairs with
their index, and for each pair whose both sides resolve to interface
types, materialize both method sets and run the interface check; a
non-breaking outcome records the index as compatible and sets the
message.  A resolution failure aborts with the error. -/
def removeICLoop (binfo ainfo : Info) (checkI : List Field → List Field → DeclChange) :
    Nat → List (Field × Field) → String → List Nat → Except String (String × List Nat)
| _, [], msg, acc => .ok (msg, acc)
| i, p :: rest, msg, acc =>
  match binfo.typeOf p.1.type, ainfo.typeOf p.2.type with
  | some bt, some aty =>
    if bt.isIntf && aty.isIntf then
      match exprInterfaceType binfo.uses p.1.type with
      | .error e => .error e
      | .ok bint =>
        match exprInterfaceType ainfo.uses p.2.type with
        | .error e => .error e
        | .ok aint =>
          if (checkI bint aint).change != Breaking then
            removeICLoop binfo ainfo checkI (i + 1) rest "compatible interface change" (acc ++ [i])
          else removeICLoop binfo ainfo checkI (i + 1) rest msg acc
    else removeICLoop binfo ainfo checkI (i + 1) rest msg acc
  | _, _ => removeICLoop binfo ainfo checkI (i + 1) rest msg acc

/-- RemoveInterfaceCompatible of ast.go, parameterized over the
interface check it recurses into. -/
def removeInterfaceCompatibleWith (binfo ainfo : Info)
    (checkI : List Field → List Field → DeclChange) (d : diffResult) :
    Except String (String × diffResult) :=
match removeICLoop binfo ainfo checkI 0 d.modified "" [] with
| .error e => .error e
| .ok p => .ok (p.1, ⟨d.added, d.removed, removeModified d.modified p.2⟩)

/-- The per-before-entry loop of diffFields: look each before field's
key up in the (mutating) after map; identical type drops both, different
type records a modified pair, no entry records a removal; the consumed
binding is deleted either way.  Returns the diff so far and the
remaining after map. -/
def diffLoop (eqFn : Expr → Expr → Bool) :
    List Field → Nat → AList Field → diffResult × AList Field
| [], _, m => (⟨[], [], []⟩, m)
| bf :: rest, i, m =>
  let bkey := fieldKey bf i
  match aLookup m bkey with
  | some af =>
    let res := diffLoop eqFn rest (i + 1) (aDelete m bkey)
    if eqFn bf.type af.type then res
    else (⟨res.1.added, res.1.removed, (bf, af) :: res.1.modified⟩, res.2)
  | Option.none =>
    let res := diffLoop eqFn rest (i + 1) m
    (⟨res.1.added, bf :: res.1.removed, res.1.modified⟩, res.2)

/-- The AfterMembers map of diffFields: after fields keyed by fieldKey. -/
def buildAfterMap (after : List Field) : AList Field :=
(go after 0 []) where
  go : List Field → Nat → AList Field → AList Field
  | [], _, m => m
  | f :: rest, i, m => go rest (i + 1) (aInsert m (fieldKey f i) f)

/-- diffFields of ast.go, parameterized over expression equality:
whatever remains unconsumed in the after map is added. -/
def diffFieldsWith (eqFn : Expr → Expr → Bool) (before after : List Field) : diffResult :=
let res := diffLoop eqFn before 0 (buildAfterMap after)
⟨res.2.map (fun p => p.2), res.1.removed, res.1.modified⟩

/-- checkChan of ast.go, parameterized over expression equality: element
type first, then direction (removing a direction is non-breaking,
changing it is breaking). -/
def checkChanWith (eqFn : Expr → Expr → Bool) (bdir : ChanDir) (bval : Expr)
    (adir : ChanDir) (aval : Expr) : DeclChange :=
if !eqFn bval aval then breaking "changed channel's type"
else if bdir != adir then
  if adir != ChanDir.send && adir != ChanDir.recv then
    nonBreaking "removed channel's direction"
  else breaking "changed channel's direction"
else noChange

/-- checkInterface of ast.go, parameterized over expression equality:
added members break, modified members break, removed members alone are
non-breaking. -/
def checkInterfaceWith (eqFn : Expr → Expr → Bool) (before after : List Field) : DeclChange :=
let r := diffFieldsWith eqFn before after
if r.Added then breaking "members added"
else if r.Modified then breaking "members changed types"
else if r.Removed then nonBreaking "members removed"
else noChange

/-- checkStruct of ast.go, parameterized over expression equality:
unexported modified pairs are dropped first; removed members break,
modified members break, added members alone are non-breaking.  The
RemoveUnexported panic on a name-less modified pair (embedded field) is
surfaced as the error "index out of range": the real tool crashes there
and produces no classification. -/
def checkStructWith (eqFn : Expr → Expr → Bool) (before after : List Field) :
    Except String DeclChange :=
match (diffFieldsWith eqFn before after).RemoveUnexported with
| Option.none => .error "index out of range"
| some r =>
  .ok (if r.Removed then breaking "members removed"
    else if r.Modified then breaking "members changed types"
    else if r.Added then nonBreaking "members added"
    else noChange)

/-- checkFunc of ast.go, parameterized over expression equality and the
interface check the interface-compatibility exception recurses into. -/
def checkFuncWith (binfo ainfo : Info) (eqFn : Expr → Expr → Bool)
    (checkI : List Field → List Field → DeclChange)
    (bparams : List Field) (bresults : Option (List Field))
    (aparams : List Field) (aresults : Option (List Field)) : Except String DeclChange :=
let r0 := diffFieldsWith eqFn (stripNames bparams) (stripNames aparams)
let v := removeVariadicCompatible binfo ainfo r0
match removeInterfaceCompatibleWith binfo ainfo checkI v.2 with
| .error e => .error e
| .ok ir =>
  if ir.2.Changed then .ok (breaking "parameter types changed")
  else
    let finish : Except String DeclChange :=
      if ir.1 != "" then .ok (nonBreaking ir.1)
      else if v.1 != "" then .ok (nonBreaking v.1)
      else .ok noChange
    match bresults with
    | Option.none => finish
    | some brl =>
      match aresults with
      | Option.none => .ok (breaking "removed return parameter")
      | some arl =>
        if brl.length > 0 then
          let r1 := diffFieldsWith eqFn (stripNames brl) (stripNames arl)
          if r1.Changed then .ok (breaking "return parameters changed") else finish
        else finish

/-- exprEqual of ast.go, with fuel driving the recursion through nested
channel and function types.  A shape mismatch is unequal; channels and
functions recurse (an error from the nested checkFunc is discarded, its
zero-value DeclChange comparing unequal to Breaking, exactly as the Go
code drops that error); everything else falls back to comparing the
resolvers' TypeString forms. -/
def exprEqual (c : DeclChecker) : Nat → Expr → Expr → Bool
| 0, _, _ => false
| fuel + 1, before, after =>
  if !exprShapeEq before after then false
  else
    match before, after with
    | .chan bd bv, .chan ad av =>
      (checkChanWith (fun x y => exprEqual c fuel x y) bd bv ad av).change != Breaking
    | .func bp br, .func ap ar =>
      (match checkFuncWith c.binfo c.ainfo (fun x y => exprEqual c fuel x y)
          (fun x y => checkInterfaceWith (fun u v => exprEqual c fuel u v) x y)
          bp br ap ar with
        | .ok ch => ch
        | .error _ => (⟨"", ""⟩ : DeclChange)).change != Breaking
    | b, a => typeStringOpt (c.binfo.typeOf b) == typeStringOpt (c.ainfo.typeOf a)

/-- DeclChecker.checkChan at a given fuel. -/
def DeclChecker.checkChan (c : DeclChecker) (fuel : Nat) (bdir : ChanDir) (bval : Expr)
    (adir : ChanDir) (aval : Expr) : DeclChange :=
checkChanWith (fun x y => exprEqual c fuel x y) bdir bval adir aval

/-- DeclChecker.checkInterface at a given fuel. -/
def DeclChecker.checkInterface (c : DeclChecker) (fuel : Nat) (before after : List Field) :
    DeclChange :=
checkInterfaceWith (fun x y => exprEqual c fuel x y) before after

/-- DeclChecker.checkStruct at a given fuel. -/
def DeclChecker.checkStruct (c : DeclChecker) (fuel : Nat) (before after : List Field) :
    Except String DeclChange :=
checkStructWith (fun x y => exprEqual c fuel x y) before after

/-- DeclChecker.diffFields at a given fuel. -/
def DeclChecker.diffFields (c : DeclChecker) (fuel : Nat) (before after : List Field) :
    diffResult :=
diffFieldsWith (fun x y => exprEqual c fuel x y) before after

/-- DeclChecker.checkFunc at a given fuel. -/
def DeclChecker.checkFunc (c : DeclChecker) (fuel : Nat)
    (bparams : List Field) (bresults : Option (List Field))
    (aparams : List Field) (aresults : Option (List Field)) : Except String DeclChange :=
checkFuncWith c.binfo c.ainfo (fun x y => exprEqual c fuel x y)
  (fun x y => c.checkInterface fuel x y) bparams bresults aparams aresults

/-- Check of ast.go: declaration shape first ("changed declaration"),
then spec shape ("changed spec"), then the per-kind rules.  A GenDecl
whose Specs slice is empty makes the Go code panic on Specs[0]; that is
modelled as an error (the extractor always produces one spec). -/
def DeclChecker.Check (c : DeclChecker) (fuel : Nat) (before after : Decl) :
    Except String DeclChange :=
if !declShapeEq before after then .ok (breaking "changed declaration")
else
  match before, after with
  | .genDecl _ bspecs, .genDecl _ aspecs =>
    match bspecs.head?, aspecs.head? with
    | some bspec, some aspec =>
      if !specShapeEq bspec aspec then .ok (breaking "changed spec")
      else
        match bspec, aspec with
        | .valueSpec bnames _ _, .valueSpec anames _ _ =>
          let btype := c.binfo.objectOf (bnames.headD "")
          let atype := c.ainfo.objectOf (anames.headD "")
          if !(btype.type.uid == atype.type.uid) then
            if btype.str != atype.str then .ok (breaking "changed type")
            else .ok noChange
          else .ok noChange
        | .typeSpec _ btype, .typeSpec _ atype =>
          if !exprShapeEq btype atype then .ok (breaking "changed type of value spec")
          else
            match btype, atype with
            | .interfaceType bms, .interfaceType ams => .ok (c.checkInterface fuel bms ams)
            | .structType bfs, .structType afs => c.checkStruct fuel bfs afs
            | .ident bn, .ident an =>
              if bn != an then .ok (breaking "alias changed its underlying type")
              else .ok noChange
            | _, _ => .ok noChange
        | _, _ => .ok noChange
    | _, _ => .error "index out of range"
  | .funcDecl _ _ bp br, .funcDecl _ _ ap ar => c.checkFunc fuel bp br ap ar
  | _, _ => .error "unknown declaration type"

/-- The three accumulators of pkgDecls: exported declarations, private
declarations, and the names of identifier result types of exported
functions. -/
structure ExtractState where
decls : AList Decl
priv : AList Decl
returned : List String

/-- Register a declaration under an identifier: exported identifiers go
to decls, the rest to priv. -/
def register (st : ExtractState) (id : String) (d : Decl) : ExtractState :=
if isExported id then ⟨aInsert st.decls id d, st.priv, st.returned⟩
else ⟨st.decls, aInsert st.priv id d, st.returned⟩

/-- The ValueSpec split loop of pkgDecls: the loop over the spec's names
rebuilds a single-name spec per name, but the variables holding the
identifier and the rebuilt declaration are overwritten on every
iteration and only read after the loop, so only the LAST name's
declaration survives to be registered (modelled faithfully).  A spec
with no names leaves the Go variables at their zero values; that cannot
come out of the parser and is modelled as skipping the spec. -/
def lastValueSpec (tok : Token) (names : List String) (typ : Option Expr)
    (values : List Expr) : Option (String × Decl) :=
match names with
| [] => Option.none
| _ :: _ =>
  let j := names.length - 1
  let id := names.getLastD ""
  let vals : List Expr :=
    match values[j]? with
    | some v => [v]
    | Option.none => []
  some (id, Decl.genDecl tok [Spec.valueSpec [id] typ vals])

/-- The per-spec step of pkgDecls: imports are ignored, type specs are
wrapped in a fresh single-spec GenDecl, value specs go through the split
loop. -/
def processSpec (tok : Token) (st : ExtractState) (s : Spec) : ExtractState :=
match s with
| .importSpec => st
| .typeSpec n ty => register st n (Decl.genDecl tok [Spec.typeSpec n ty])
| .valueSpec names typ values =>
  match lastValueSpec tok names typ values with
  | Option.none => st
  | some p => register st p.1 p.2

/-- The receiver name extraction of pkgDecls: an Ident or a StarExpr
over an Ident; any other shape leaves the name empty (the Go code only
ever sees these two shapes from the parser). -/
def recvIdent : List Field → String
| f :: _ =>
  match f.type with
  | .ident n => n
  | .star (.ident n) => n
  | _ => ""
| [] => ""

/-- The (receiver name, identifier) of a function declaration: with a
non-empty receiver list the identifier is "recv.name", else just the
name. -/
def funcId (recv : Option (List Field)) (name : String) : String × String :=
match recv with
| some (f :: rest) =>
  let r := recvIdent (f :: rest)
  (r, r ++ "." ++ name)
| _ => ("", name)

/-- The result-type scan of pkgDecls: the names of Ident and
StarExpr-over-Ident result types, in order. -/
def resultTypeNames : Option (List Field) → List String
| Option.none => []
| some fs =>
  fs.filterMap (fun f =>
    match f.type with
    | .ident n => some n
    | .star (.ident n) => some n
    | _ => Option.none)

/-- The per-declaration step of pkgDecls.  A function is exported when
its own name is exported and it either has no receiver name or an
exported one; only exported functions contribute their identifier result
types to the returned set. -/
def processDecl (st : ExtractState) (d : Decl) : ExtractState :=
match d with
| .genDecl tok specs => specs.foldl (processSpec tok) st
| .funcDecl recv name _ results =>
  let p := funcId recv name
  if isExported name && (p.1 == "" || isExported p.1) then
    ⟨aInsert st.decls p.2 d, st.priv, st.returned ++ resultTypeNames results⟩
  else ⟨st.decls, aInsert st.priv p.2 d, st.returned⟩

/-- The first pass of pkgDecls over every declaration of every file. -/
def extractAll (files : List (List Decl)) : ExtractState :=
files.foldl (fun st file => file.foldl processDecl st) ⟨[], [], []⟩

/-- The promotion step of pkgDecls for one returned identifier: a
private declaration of that name is copied into the public map, and so
is every private declaration whose identifier is longer than the name
plus a separator, starts with the name, and continues (after one
skipped character) with an exported method name.  String indexing is by
character here where the Go code slices bytes; they agree on ASCII
identifiers. -/
def promoteOne (priv : AList Decl) (decls : AList Decl) (id : String) : AList Decl :=
let base :=
  match aLookup priv id with
  | some d => aInsert decls id d
  | Option.none => decls
priv.foldl (fun acc p =>
  if p.1.length ≤ id.length + 1 then acc
  else
    if (id == p.1.take id.length) && isExported (p.1.drop (id.length + 1)) then
      aInsert acc p.1 p.2
    else acc) base

/-- pkgDecls of abicheck.go: the extraction pass followed by the
promotion of returned private types and their exported methods. -/
def pkgDecls (files : List (List Decl)) : AList Decl :=
let st := extractAll files
st.returned.foldl (promoteOne st.priv) st.decls

/-- The inner promotion step of promoteOne. -/
def promoteStep (id : String) (acc : AList Decl) (p : String × Decl) : AList Decl :=
if p.1.length ≤ id.length + 1 then acc
else
  if (id == p.1.take id.length) && isExported (p.1.drop (id.length + 1)) then
    aInsert acc p.1 p.2
  else acc

/-- One package revision as compareDecls consumes it: its declaration
map, its resolver, and the position oracle abstracting pos(fset, decl). -/
structure Pkg where
decls : AList Decl
info : Info
posOf : Decl → String

/-- Change of abicheck.go. -/
structure Change where
pkg : String
id : String
msg : String
change : String
pos : String
before : Option Decl
after : Option Decl

/-- diffError of abicheck.go: the underlying error tagged with the
package and the declaration pair that produced it. -/
structure DiffError where
err : String
pkg : String
bdecl : Decl
adecl : Decl

/-- The matched-pair loop of compareDecls over the before map: a missing
after declaration is a breaking removal; a Check error aborts the whole
comparison with a diffError carrying the package and the pair; a None
change is skipped; anything else is recorded. -/
def compareMatched (d : DeclChecker) (fuel : Nat) (pkgName : String) (bpkg apkg : Pkg) :
    AList Decl → Except DiffError (List Change)
| [] => .ok []
| (id, bDecl) :: rest =>
  match aLookup apkg.decls id with
  | Option.none =>
    match compareMatched d fuel pkgName bpkg apkg rest with
    | .error e => .error e
    | .ok cs =>
      .ok (⟨pkgName, id, "declaration removed", Breaking, bpkg.posOf bDecl,
        some bDecl, Option.none⟩ :: cs)
  | some aDecl =>
    match d.Check fuel bDecl aDecl with
    | .error err => .error ⟨err, pkgName, bDecl, aDecl⟩
    | .ok change =>
      match compareMatched d fuel pkgName bpkg apkg rest with
      | .error e => .error e
      | .ok cs =>
        if change.change == None then .ok cs
        else
          .ok (⟨pkgName, id, change.msg, change.change, apkg.posOf aDecl,
            some bDecl, some aDecl⟩ :: cs)

/-- The added-declaration loop of compareDecls over the after map. -/
def addedDecls (pkgName : String) (bpkg apkg : Pkg) : AList Decl → List Change
| [] => []
| (id, aDecl) :: rest =>
  if (aLookup bpkg.decls id).isNone then
    ⟨pkgName, id, "declaration added", NonBreaking, apkg.posOf aDecl,
      Option.none, some aDecl⟩ :: addedDecls pkgName bpkg apkg rest
  else addedDecls pkgName bpkg apkg rest

/-- One package pair of compareDecls. -/
def compareOnePkg (fuel : Nat) (pkgName : String) (bpkg apkg : Pkg) :
    Except DiffError (List Change) :=
match compareMatched ⟨bpkg.info, apkg.info⟩ fuel pkgName bpkg apkg bpkg.decls with
| .error e => .error e
| .ok cs => .ok (cs ++ addedDecls pkgName bpkg apkg apkg.decls)

/-- compareDecls of abicheck.go: every before package is compared
against its after counterpart; a missing counterpart is one synthetic
breaking "package removed" change; any comparison error aborts. -/
def compareDecls (fuel : Nat) : AList Pkg → AList Pkg → Except DiffError (List Change)
| [], _ => .ok []
| (pkgName, bpkg) :: rest, a =>
  match aLookup a pkgName with
  | Option.none =>
    match compareDecls fuel rest a with
    | .error e => .error e
    | .ok cs =>
      .ok (⟨pkgName, "", "package removed", Breaking, "", Option.none, Option.none⟩ :: cs)
  | some apkg =>
    match compareOnePkg fuel pkgName bpkg apkg with
    | .error e => .error e
    | .ok cs =>
      match compareDecls fuel rest a with
      | .error e => .error e
      | .ok cs2 => .ok (cs ++ cs2)

/-! ### Claim-side specification functions

These definitions follow the wording of the specification / claims and
are compared against the source-derived definitions above. -/

/-- Spec wording for the channel rule: element types must match
(breaking otherwise); an unchanged direction is no change; a direction
removed (after side bidirectional) is non-breaking; a changed direction
is breaking. -/
def specChanClassify (elemEqual : Bool) (bdir adir : ChanDir) : DeclChange :=
if !elemEqual then breaking "changed channel's type"
else if bdir == adir then noChange
else if adir == ChanDir.both then nonBreaking "removed channel's direction"
else breaking "changed channel's direction"

/-- The claim's test on a modified pair: the before field's name is
exported.  Claim-side only; it is consulted under a hypothesis ruling
name-less pairs out (on those the program panics instead). -/
def beforeNameExported (p : Field × Field) : Bool :=
match Field.names p.1 with
| n :: _ => isExported n
| [] => false

/-- Spec wording for the struct rule: first discard every modified pair
whose before-field name is unexported; then any remaining removed field
is breaking, any remaining modified field is breaking, any added field
is non-breaking, else no change. -/
def specStructClassify (eqFn : Expr → Expr → Bool) (before after : List Field) : DeclChange :=
let d := diffFieldsWith eqFn before after
let kept := d.modified.filter beforeNameExported
if !d.removed.isEmpty then breaking "members removed"
else if !kept.isEmpty then breaking "members changed types"
else if !d.added.isEmpty then nonBreaking "members added"
else noChange

/-- Spec wording for the interface rule: any added method is breaking,
any modified method is breaking, removed methods alone are non-breaking,
else no change. -/
def specInterfaceClassify (eqFn : Expr → Expr → Bool) (before after : List Field) : DeclChange :=
let d := diffFieldsWith eqFn before after
if !d.added.isEmpty then breaking "members added"
else if !d.modified.isEmpty then breaking "members changed types"
else if !d.removed.isEmpty then nonBreaking "members removed"
else noChange

/-- The claim's notion of differing declaration kinds: a GenDecl against
a FuncDecl, or two GenDecls whose (first) specs have different shapes
(value spec against type spec and so on). -/
def declKindsDiffer : Decl → Decl → Bool
| .genDecl _ (b1 :: _), .genDecl _ (a1 :: _) => !specShapeEq b1 a1
| .genDecl _ _, .funcDecl _ _ _ _ => true
| .funcDecl _ _ _ _, .genDecl _ _ => true
| _, _ => false

/-- A type expression that is neither a struct type, an interface type
nor a plain identifier: the shapes Check's type-spec switch falls
through on. -/
def otherTypeShape : Expr → Bool
| .structType _ => false
| .interfaceType _ => false
| .ident _ => false
| _ => true

/-- The MatchKeys of a field list, positions counted from i. -/
def keysFrom : List Field → Nat → List String
| [], _ => []
| f :: rest, i => fieldKey f i :: keysFrom rest (i + 1)

/-- The claim's per-entry description of the field diff against a fixed
after map: a before entry whose key finds an identically typed entry is
dropped, one finding a differently typed entry is modified, one finding
no entry is removed.  Returns (removed, modified). -/
def specDiffClassify (eqFn : Expr → Expr → Bool) (m : AList Field) :
    List Field → Nat → List Field × List (Field × Field)
| [], _ => ([], [])
| bf :: rest, i =>
  let res := specDiffClassify eqFn m rest (i + 1)
  match aLookup m (fieldKey bf i) with
  | some af => if eqFn bf.type af.type then res else (res.1, (bf, af) :: res.2)
  | Option.none => (bf :: res.1, res.2)

/-- The claim's added set: the after-map entries whose key is not among
the before keys. -/
def specAdded (m : AList Field) (beforeKeys : List String) : List Field :=
(m.filter (fun p => !beforeKeys.contains p.1)).map (fun p => p.2)

/-! ### Concrete fixtures

A concrete resolver oracle and declarations used by witnesses and
counterexamples.  The oracle gives every identifier type its own textual
form, marks interface literals as interfaces with their method count as
textual form, and has an empty Uses map. -/

/-- A concrete resolver oracle for the examples. -/
def oracle0 : Info :=
⟨fun n => ⟨⟨0, n, false⟩, n⟩,
  fun e =>
    match e with
    | .ident n => some ⟨0, n, false⟩
    | .interfaceType ms => some ⟨0, toString ms.length, true⟩
    | _ => some ⟨0, "", false⟩,
  fun _ => Option.none⟩

/-- A checker over two copies of the concrete oracle. -/
def chk0 : DeclChecker := ⟨oracle0, oracle0⟩

/-- A parameterless method type. -/
def methodType : Expr := .func [] Option.none

/-- Method A. -/
def methodA : Field := .mk ["A"] methodType

/-- Method B. -/
def methodB : Field := .mk ["B"] methodType

/-- type I interface { A() }. -/
def ifaceA : Decl := .genDecl .ttype [.typeSpec "I" (.interfaceType [methodA])]

/-- type I interface { A(); B() }. -/
def ifaceAB : Decl := .genDecl .ttype [.typeSpec "I" (.interfaceType [methodA, methodB])]

/-- type S struct { x int }. -/
def structLx : Decl := .genDecl .ttype [.typeSpec "S" (.structType [.mk ["x"] (.ident "int")])]

/-- type S struct { x string }. -/
def structLxMod : Decl := .genDecl .ttype [.typeSpec "S" (.structType [.mk ["x"] (.ident "string")])]

/-- func F(a T). -/
def fnT : Decl := .funcDecl Option.none "F" [.mk ["a"] (.ident "T")] Option.none

/-- func F(a ...T). -/
def fnVariadic : Decl :=
.funcDecl Option.none "F" [.mk ["a"] (.ellipsis (.ident "T"))] Option.none

/-- func F(a T, b ...T). -/
def fnAddedVariadic : Decl :=
.funcDecl Option.none "F" [.mk ["a"] (.ident "T"), .mk ["b"] (.ellipsis (.ident "T"))] Option.none

/-- func F(a T, b U). -/
def fnAddedPlain : Decl :=
.funcDecl Option.none "F" [.mk ["a"] (.ident "T"), .mk ["b"] (.ident "U")] Option.none

/-- type M map[string]int. -/
def mapDeclB : Decl := .genDecl .ttype [.typeSpec "M" (.mapType (.ident "string") (.ident "int"))]

/-- type M map[int]bool. -/
def mapDeclA : Decl := .genDecl .ttype [.typeSpec "M" (.mapType (.ident "int") (.ident "bool"))]

/-- var A, B int (one multi-name value spec). -/
def valueAB : Decl := .genDecl .tvar [.valueSpec ["A", "B"] (some (.ident "int")) []]

/-- type s struct { X int } (unexported). -/
def privStructB : Decl := .genDecl .ttype [.typeSpec "s" (.structType [.mk ["X"] (.ident "int")])]

/-- type s struct { X int; Y int } (unexported). -/
def privStructA : Decl :=
.genDecl .ttype [.typeSpec "s" (.structType [.mk ["X"] (.ident "int"), .mk ["Y"] (.ident "int")])]

/-- func Public() s. -/
def pubFn : Decl := .funcDecl Option.none "Public" [] (some [.mk [] (.ident "s")])

/-- interface { A() } as a literal parameter type. -/
def ifaceLit1 : Expr := .interfaceType [methodA]

/-- interface { A(); B() } as a literal parameter type. -/
def ifaceLit2 : Expr := .interfaceType [methodA, methodB]

/-- type S struct { f func(interface{ A() }) }. -/
def structFnLitB : Decl :=
.genDecl .ttype [.typeSpec "S" (.structType [.mk ["f"] (.func [.mk [] ifaceLit1] Option.none)])]

/-- type S struct { f func(interface{ A(); B() }) }. -/
def structFnLitA : Decl :=
.genDecl .ttype [.typeSpec "S" (.structType [.mk ["f"] (.func [.mk [] ifaceLit2] Option.none)])]

/-- func F(a interface{ A() }). -/
def fnIntfB : Decl := .funcDecl Option.none "F" [.mk ["a"] ifaceLit1] Option.none

/-- func F(a interface{ A(); B() }). -/
def fnIntfA : Decl := .funcDecl Option.none "F" [.mk ["a"] ifaceLit2] Option.none

/-- The before package holding only F, for the error-propagation
witness. -/
def pkgIntfB : Pkg := ⟨[("F", fnIntfB)], oracle0, fun _ => ""⟩

/-- The after package holding only F. -/
def pkgIntfA : Pkg := ⟨[("F", fnIntfA)], oracle0, fun _ => ""⟩

/-- A resolver oracle that also distinguishes selector expressions by
their selected name, for the embedded-field example. -/
def oracleEmb : Info :=
⟨fun n => ⟨⟨0, n, false⟩, n⟩,
  fun e =>
    match e with
    | .ident n => some ⟨0, n, false⟩
    | .selector _ s => some ⟨0, s, false⟩
    | .interfaceType ms => some ⟨0, toString ms.length, true⟩
    | _ => some ⟨0, "", false⟩,
  fun _ => Option.none⟩

/-- A checker over two copies of the embedded-field oracle. -/
def chkEmb : DeclChecker := ⟨oracleEmb, oracleEmb⟩

/-- type S struct { sync.Mutex } (an embedded, name-less field). -/
def structEmbB : Decl :=
.genDecl .ttype [.typeSpec "S"
  (.structType [.mk [] (.selector (.ident "sync") "Mutex")])]

/-- type S struct { sync.RWMutex }. -/
def structEmbA : Decl :=
.genDecl .ttype [.typeSpec "S"
  (.structType [.mk [] (.selector (.ident "sync") "RWMutex")])]

/-! ### Association list lemmas -/

theorem aLookup_aInsert_self {α : Type} (m : AList α) (k : String) (v : α) :
    aLookup (aInsert m k v) k = some v := by
induction m with
| nil => simp [aInsert, aLookup]
| cons p rest ih =>
  by_cases h : p.1 = k
  · simp [aInsert, aLookup, h]
  · simp [aInsert, aLookup, h, ih]

theorem aLookup_aInsert_ne {α : Type} (m : AList α) (k k2 : String) (v : α)
    (h : k2 ≠ k) : aLookup (aInsert m k v) k2 = aLookup m k2 := by
have hne : ¬(k = k2) := fun hh => h hh.symm
induction m with
| nil => simp [aInsert, aLookup, hne]
| cons p rest ih =>
  obtain ⟨p1, p2⟩ := p
  by_cases hp : p1 = k
  · subst hp
    simp [aInsert, aLookup, hne]
  · by_cases hp2 : p1 = k2
    · subst hp2
      simp [aInsert, aLookup, hp]
    · simp [aInsert, aLookup, hp, hp2, ih]

theorem mem_aKeys_aInsert {α : Type} (m : AList α) (k x : String) (v : α) :
    x ∈ aKeys (aInsert m k v) ↔ x = k ∨ x ∈ aKeys m := by
induction m with
| nil => simp [aInsert, aKeys]
| cons p rest ih =>
  by_cases hp : p.1 = k
  · subst hp
    simp [aInsert, aKeys]
  · simp only [aInsert, beq_iff_eq, hp, if_false]
    simp only [aKeys, List.map_cons, List.mem_cons] at ih ⊢
    constructor
    · rintro (h | h)
      · exact Or.inr (Or.inl h)
      · rcases ih.mp h with h | h
        · exact Or.inl h
        · exact Or.inr (Or.inr h)
    · rintro (h | h | h)
      · exact Or.inr (ih.mpr (Or.inl h))
      · exact Or.inl h
      · exact Or.inr (ih.mpr (Or.inr h))

theorem aKeys_nodup_aInsert {α : Type} (m : AList α) (k : String) (v : α)
    (h : (aKeys m).Nodup) : (aKeys (aInsert m k v)).Nodup := by
induction m with
| nil => simp [aInsert, aKeys]
| cons p rest ih =>
  by_cases hp : p.1 = k
  · subst hp
    simpa [aInsert, aKeys] using h
  · simp only [aKeys, List.map_cons, List.nodup_cons] at h
    have hrest := ih h.2
    simp only [aInsert, beq_iff_eq, hp, if_false, aKeys, List.map_cons, List.nodup_cons]
    refine ⟨?_, hrest⟩
    intro hmem
    rcases (mem_aKeys_aInsert rest k p.1 v).mp hmem with hh | hh
    · exact hp hh
    · exact h.1 hh

theorem aDelete_cons {α : Type} (p : String × α) (rest : AList α) (k : String) :
    aDelete (p :: rest) k =
      if p.1 = k then aDelete rest k else p :: aDelete rest k := by
by_cases hp : p.1 = k <;> simp [aDelete, List.filter_cons, bne, hp]

theorem aLookup_aDelete_ne {α : Type} (m : AList α) (k k2 : String)
    (h : k2 ≠ k) : aLookup (aDelete m k) k2 = aLookup m k2 := by
induction m with
| nil => simp [aDelete, aLookup]
| cons p rest ih =>
  rw [aDelete_cons]
  by_cases hp : p.1 = k
  · rw [if_pos hp, ih]
    have hne2 : ¬(p.1 = k2) := by
      rw [hp]
      exact fun hh => h hh.symm
    simp [aLookup, hne2]
  · rw [if_neg hp]
    by_cases hp2 : p.1 = k2
    · simp [aLookup, hp2]
    · simp [aLookup, hp2, ih]

theorem aLookup_eq_none_of_not_mem {α : Type} (m : AList α) (k : String)
    (h : k ∉ aKeys m) : aLookup m k = Option.none := by
induction m with
| nil => simp [aLookup]
| cons p rest ih =>
  simp only [aKeys, List.map_cons, List.mem_cons, not_or] at h
  have hpk : ¬(p.1 = k) := fun hh => h.1 hh.symm
  have hrest : k ∉ aKeys rest := by simpa [aKeys] using h.2
  simp [aLookup, hpk, ih hrest]

theorem aDelete_eq_of_none {α : Type} (m : AList α) (k : String)
    (h : aLookup m k = Option.none) : aDelete m k = m := by
induction m with
| nil => simp [aDelete]
| cons p rest ih =>
  by_cases hp : p.1 = k
  · simp [aLookup, hp] at h
  · simp only [aLookup, beq_iff_eq, hp, if_false] at h
    rw [aDelete_cons, if_neg hp, ih h]

theorem aDelete_length {α : Type} (m : AList α) (k : String) (v : α)
    (hn : (aKeys m).Nodup) (h : aLookup m k = some v) :
    (aDelete m k).length + 1 = m.length := by
induction m with
| nil => simp [aLookup] at h
| cons p rest ih =>
  simp only [aKeys, List.map_cons, List.nodup_cons] at hn
  by_cases hp : p.1 = k
  · have hk : k ∉ aKeys rest := by
      intro hmem
      apply hn.1
      rw [hp]
      exact hmem
    have hnone : aLookup rest k = Option.none := aLookup_eq_none_of_not_mem rest k hk
    rw [aDelete_cons, if_pos hp, aDelete_eq_of_none rest k hnone]
    simp
  · simp only [aLookup, beq_iff_eq, hp, if_false] at h
    have hlen := ih hn.2 h
    rw [aDelete_cons, if_neg hp]
    simp only [List.length_cons]
    omega

theorem aKeys_nodup_aDelete {α : Type} (m : AList α) (k : String)
    (h : (aKeys m).Nodup) : (aKeys (aDelete m k)).Nodup := by
have hsub : List.Sublist ((m.filter (fun p => p.1 != k)).map (fun p => p.1))
    (m.map (fun p => p.1)) :=
  List.Sublist.map (fun p => p.1) (List.filter_sublist m)
exact h.sublist hsub

theorem aLookup_of_mem {α : Type} {m : AList α} {k : String} {v : α}
    (hn : (aKeys m).Nodup) (hm : (k, v) ∈ m) : aLookup m k = some v := by
induction m with
| nil => simp at hm
| cons p rest ih =>
  simp only [aKeys, List.map_cons, List.nodup_cons] at hn
  rcases List.mem_cons.mp hm with h | h
  · simp [aLookup, ← h]
  · by_cases hp : p.1 = k
    · exfalso
      apply hn.1
      rw [hp]
      exact List.mem_map.mpr ⟨(k, v), h, rfl⟩
    · simp [aLookup, hp, ih hn.2 h]

theorem mem_of_aLookup {α : Type} {m : AList α} {k : String} {v : α}
    (h : aLookup m k = some v) : (k, v) ∈ m := by
induction m with
| nil => simp [aLookup] at h
| cons p rest ih =>
  by_cases hp : p.1 = k
  · simp only [aLookup, beq_iff_eq, hp, if_true, Option.some.injEq] at h
    refine List.mem_cons.mpr (Or.inl ?_)
    rw [← hp, ← h]
  · simp only [aLookup, beq_iff_eq, hp, if_false] at h
    exact List.mem_cons.mpr (Or.inr (ih h))

/-! ### RemoveUnexported is the exported-name filter -/

theorem removeModifiedFrom_congr (mods : List (Field × Field)) :
    ∀ j (R R2 : List Nat), (∀ n, j ≤ n → R.contains n = R2.contains n) →
    removeModifiedFrom R mods j = removeModifiedFrom R2 mods j := by
induction mods with
| nil => intro j R R2 _; simp [removeModifiedFrom]
| cons p rest ih =>
  intro j R R2 h
  have hj := h j (Nat.le_refl j)
  have hrest := ih (j + 1) R R2 (fun n hn => h n (Nat.le_of_succ_le hn))
  simp only [removeModifiedFrom, hj, hrest]

theorem not_contains_of_lt (R : List Nat) (i j : Nat)
    (hge : ∀ n, n ∈ R → j ≤ n) (hij : i < j) : R.contains i = false := by
cases hc : R.contains i
· rfl
· exfalso
  have hi : i ∈ R := by simpa using hc
  exact Nat.not_le.mpr hij (hge i hi)

/-- When every modified pair's before field carries a name, the
index-collection loop returns (no panic), its indices lie above the
start, and removing them keeps exactly the exported-name pairs. -/
theorem unexportedIdxFrom_named (mods : List (Field × Field)) :
    ∀ i, (∀ p ∈ mods, Field.names p.1 ≠ []) →
      ∃ idxs, unexportedIdxFrom mods i = some idxs ∧
        (∀ n ∈ idxs, i ≤ n) ∧
        removeModifiedFrom idxs mods i = mods.filter beforeNameExported := by
induction mods with
| nil =>
  intro i _
  exact ⟨[], rfl, by simp, rfl⟩
| cons p rest ih =>
  intro i h
  have hname : Field.names p.1 ≠ [] := h p (List.mem_cons.mpr (Or.inl rfl))
  obtain ⟨n, ns, hn⟩ : ∃ n ns, Field.names p.1 = n :: ns := by
    cases hc : Field.names p.1 with
    | nil => exact absurd hc hname
    | cons n ns => exact ⟨n, ns, rfl⟩
  obtain ⟨U, hU, hge, hrm⟩ :=
    ih (i + 1) (fun q hq => h q (List.mem_cons.mpr (Or.inr hq)))
  by_cases hexp : isExported n
  · refine ⟨U, ?_, ?_, ?_⟩
    · simp [unexportedIdxFrom, hn, hU, hexp]
    · intro n2 hn2
      exact Nat.le_of_succ_le (hge n2 hn2)
    · have hnc : U.contains i = false :=
        not_contains_of_lt U i (i + 1) hge (Nat.lt_succ_self i)
      simp only [removeModifiedFrom, hnc, Bool.false_eq_true, if_false, hrm,
        List.filter_cons]
      simp [beforeNameExported, hn, hexp]
  · refine ⟨i :: U, ?_, ?_, ?_⟩
    · simp [unexportedIdxFrom, hn, hU, hexp]
    · intro n2 hn2
      rcases List.mem_cons.mp hn2 with h2 | h2
      · exact Nat.le_of_eq h2.symm
      · exact Nat.le_of_succ_le (hge n2 h2)
    · have hci : (i :: U).contains i = true := by simp [List.contains_cons]
      simp only [removeModifiedFrom, hci, if_true]
      have hcongr : removeModifiedFrom (i :: U) rest (i + 1) =
          removeModifiedFrom U rest (i + 1) := by
        apply removeModifiedFrom_congr
        intro n2 hn2
        have hne : ¬(n2 = i) := by omega
        simp [List.contains_cons, hne]
      rw [hcongr, hrm]
      simp [List.filter_cons, beforeNameExported, hn, hexp]

/-- A name-less modified pair anywhere makes the index-collection loop
panic (Names[0] out of range). -/
theorem unexportedIdxFrom_none_of_nameless (mods : List (Field × Field)) :
    ∀ i (bf af : Field), (bf, af) ∈ mods → Field.names bf = [] →
      unexportedIdxFrom mods i = Option.none := by
induction mods with
| nil => intro i bf af h _; simp at h
| cons p rest ih =>
  intro i bf af hmem hbf
  rcases List.mem_cons.mp hmem with h | h
  · have hp1 : Field.names p.1 = [] := by
      rw [← h]
      exact hbf
    simp [unexportedIdxFrom, hp1]
  · cases hc : Field.names p.1 with
    | nil => simp [unexportedIdxFrom, hc]
    | cons n ns => simp [unexportedIdxFrom, hc, ih (i + 1) bf af h hbf]

/-- RemoveUnexported keeps exactly the exported-name modified pairs when
every modified pair's before field is named. -/
theorem RemoveUnexported_named (d : diffResult)
    (h : ∀ p ∈ d.modified, Field.names p.1 ≠ []) :
    d.RemoveUnexported =
      some ⟨d.added, d.removed, d.modified.filter beforeNameExported⟩ := by
obtain ⟨idxs, hU, _, hrm⟩ := unexportedIdxFrom_named d.modified 0 h
simp only [diffResult.RemoveUnexported, hU, removeModified, hrm]

/-- RemoveUnexported panics (Option.none) when some modified pair's
before field has no names. -/
theorem RemoveUnexported_none_of_nameless (d : diffResult) (bf af : Field)
    (hmem : (bf, af) ∈ d.modified) (hbf : Field.names bf = []) :
    d.RemoveUnexported = Option.none := by
simp only [diffResult.RemoveUnexported,
  unexportedIdxFrom_none_of_nameless d.modified 0 bf af hmem hbf]

/-- The struct check computes the spec's classification whenever every
modified pair's before field is named. -/
theorem checkStructWith_named (eqFn : Expr → Expr → Bool) (before after : List Field)
    (h : ∀ p ∈ (diffFieldsWith eqFn before after).modified, Field.names p.1 ≠ []) :
    checkStructWith eqFn before after = .ok (specStructClassify eqFn before after) := by
simp only [checkStructWith, specStructClassify,
  RemoveUnexported_named (diffFieldsWith eqFn before after) h,
  diffResult.Removed, diffResult.Modified, diffResult.Added]

/-- The interface check computes the spec's classification, for any
expression equality. -/
theorem checkInterfaceWith_eq_spec (eqFn : Expr → Expr → Bool) (before after : List Field) :
    checkInterfaceWith eqFn before after = specInterfaceClassify eqFn before after := by
simp only [checkInterfaceWith, specInterfaceClassify,
  diffResult.Removed, diffResult.Modified, diffResult.Added]

/-! ### Claim theorems -/

/-- C1: whenever the declaration kinds of a pair differ (GenDecl against
FuncDecl, or a value spec against a type spec and so on), Check
classifies the pair as Breaking immediately, whatever the two kinds and
whatever the declarations' contents. -/
theorem claim_C1_kind_change_breaking (c : DeclChecker) (fuel : Nat) (b a : Decl)
    (h : declKindsDiffer b a = true) :
    ∃ msg, c.Check fuel b a = .ok ⟨Breaking, msg⟩ := by
cases b with
| genDecl btok bspecs =>
  cases a with
  | genDecl atok aspecs =>
    cases bspecs with
    | nil => simp [declKindsDiffer] at h
    | cons b1 brest =>
      cases aspecs with
      | nil => simp [declKindsDiffer] at h
      | cons a1 arest =>
        simp only [declKindsDiffer, Bool.not_eq_true'] at h
        refine ⟨"changed spec", ?_⟩
        simp [DeclChecker.Check, declShapeEq, h, breaking]
  | funcDecl ar an ap ars =>
    refine ⟨"changed declaration", ?_⟩
    simp [DeclChecker.Check, declShapeEq, breaking]
| funcDecl br bn bp brs =>
  cases a with
  | genDecl atok aspecs =>
    refine ⟨"changed declaration", ?_⟩
    simp [DeclChecker.Check, declShapeEq, breaking]
  | funcDecl ar an ap ars => simp [declKindsDiffer] at h

/-- C1 witness: a var block against a function declaration, and a value
spec against a type spec, both classify breaking. -/
theorem claim_C1_kind_change_breaking_witness :
    declKindsDiffer valueAB fnT = true ∧
      (∃ msg, chk0.Check 1 valueAB fnT = .ok ⟨Breaking, msg⟩) ∧
      declKindsDiffer valueAB mapDeclB = true ∧
      (∃ msg, chk0.Check 1 valueAB mapDeclB = .ok ⟨Breaking, msg⟩) :=
⟨rfl, claim_C1_kind_change_breaking chk0 1 valueAB fnT rfl,
  rfl, claim_C1_kind_change_breaking chk0 1 valueAB mapDeclB rfl⟩

/-- C2 counterexample: a struct whose only (embedded, name-less) field
changed type from sync.Mutex to sync.RWMutex.  The field diff yields a
modified pair whose before field has no names, RemoveUnexported reads
Names[0] and the tool panics: no classification is computed at all,
against the claim's "for every pair of struct type declarations, the
classification is computed by ...". -/
theorem claim_C2_counterexample :
    (diffFieldsWith (fun x y => exprEqual chkEmb 10 x y)
        [Field.mk [] (.selector (.ident "sync") "Mutex")]
        [Field.mk [] (.selector (.ident "sync") "RWMutex")]).modified =
      [(Field.mk [] (.selector (.ident "sync") "Mutex"),
        Field.mk [] (.selector (.ident "sync") "RWMutex"))] ∧
    chkEmb.Check 10 structEmbB structEmbA = .error "index out of range" :=
⟨rfl, rfl⟩

/-- C2 amended: for struct declarations whose modified pairs all carry a
before-field name, the classification first discards modified pairs with
an unexported before name, then orders removed (breaking) before
modified (breaking) before added (non-breaking) before none, and a
struct whose only change is the type of an unexported field classifies
no change; a modified pair with a name-less before field (an embedded
field whose type changed) makes RemoveUnexported panic instead of
classifying. -/
theorem claim_C2_struct_classification :
    (∀ (eqFn : Expr → Expr → Bool) (before after : List Field),
      (∀ p ∈ (diffFieldsWith eqFn before after).modified, Field.names p.1 ≠ []) →
      checkStructWith eqFn before after = .ok (specStructClassify eqFn before after)) ∧
    (∀ (c : DeclChecker) (fuel : Nat) (tok tok2 : Token) (bn an : String)
        (bfs afs : List Field),
      (∀ p ∈ (diffFieldsWith (fun x y => exprEqual c fuel x y) bfs afs).modified,
          Field.names p.1 ≠ []) →
      c.Check fuel (.genDecl tok [.typeSpec bn (.structType bfs)])
          (.genDecl tok2 [.typeSpec an (.structType afs)]) =
        .ok (specStructClassify (fun x y => exprEqual c fuel x y) bfs afs)) ∧
    (∀ (d : diffResult) (bf af : Field), (bf, af) ∈ d.modified → Field.names bf = [] →
      d.RemoveUnexported = Option.none) ∧
    chk0.Check 10 structLx structLxMod = .ok noChange := by
refine ⟨checkStructWith_named, ?_, RemoveUnexported_none_of_nameless, rfl⟩
intro c fuel tok tok2 bn an bfs afs h
simp only [DeclChecker.Check, declShapeEq, Bool.not_true, List.head?, specShapeEq,
  exprShapeEq, if_false, Bool.false_eq_true, DeclChecker.checkStruct,
  checkStructWith_named (fun x y => exprEqual c fuel x y) bfs afs h]

/-- C2 witness: the unexported-field-insulation example has only named
modified pairs, and the amended theorem classifies it as the spec's
classification (no change). -/
theorem claim_C2_struct_classification_witness :
    (∀ p ∈ (diffFieldsWith (fun x y => exprEqual chk0 10 x y)
        [Field.mk ["x"] (.ident "int")] [Field.mk ["x"] (.ident "string")]).modified,
      Field.names p.1 ≠ []) ∧
    chk0.Check 10 structLx structLxMod =
      .ok (specStructClassify (fun x y => exprEqual chk0 10 x y)
        [Field.mk ["x"] (.ident "int")] [Field.mk ["x"] (.ident "string")]) :=
⟨by decide,
  claim_C2_struct_classification.2.1 chk0 10 .ttype .ttype "S" "S"
    [Field.mk ["x"] (.ident "int")] [Field.mk ["x"] (.ident "string")] (by decide)⟩

/-- C3: for interface declarations any added method is breaking, any
modified method is breaking, removed methods alone are non-breaking,
and no difference is no change; concretely interface brace A brace to
brace A, B brace is breaking while the reverse is non-breaking. -/
theorem claim_C3_interface_classification :
    (∀ (eqFn : Expr → Expr → Bool) (before after : List Field),
      checkInterfaceWith eqFn before after = specInterfaceClassify eqFn before after) ∧
    (∀ (c : DeclChecker) (fuel : Nat) (tok tok2 : Token) (bn an : String)
        (bms ams : List Field),
      c.Check fuel (.genDecl tok [.typeSpec bn (.interfaceType bms)])
          (.genDecl tok2 [.typeSpec an (.interfaceType ams)]) =
        .ok (specInterfaceClassify (fun x y => exprEqual c fuel x y) bms ams)) ∧
    chk0.Check 10 ifaceA ifaceAB = .ok (breaking "members added") ∧
    chk0.Check 10 ifaceAB ifaceA = .ok (nonBreaking "members removed") ∧
    chk0.Check 10 ifaceAB ifaceAB = .ok noChange := by
refine ⟨checkInterfaceWith_eq_spec, ?_, rfl, rfl, rfl⟩
intro c fuel tok tok2 bn an bms ams
simp only [DeclChecker.Check, declShapeEq, Bool.not_true, List.head?, specShapeEq,
  exprShapeEq, if_false, Bool.false_eq_true, DeclChecker.checkInterface,
  checkInterfaceWith_eq_spec]

/-- C6: wherever a compared type expression is a channel, differing
element types are breaking, a removed direction (after side
bidirectional) is non-breaking, and a changed direction is breaking;
exprEqual consults exactly this check on channel expressions. -/
theorem claim_C6_channel_direction :
    (∀ (eqFn : Expr → Expr → Bool) (bd ad : ChanDir) (bv av : Expr),
      checkChanWith eqFn bd bv ad av = specChanClassify (eqFn bv av) bd ad) ∧
    (∀ (c : DeclChecker) (fuel : Nat) (bd ad : ChanDir) (bv av : Expr),
      exprEqual c (fuel + 1) (.chan bd bv) (.chan ad av) =
        ((c.checkChan fuel bd bv ad av).change != Breaking)) ∧
    chk0.checkChan 10 .both (.ident "int") .send (.ident "int") =
      breaking "changed channel's direction" ∧
    chk0.checkChan 10 .send (.ident "int") .both (.ident "int") =
      nonBreaking "removed channel's direction" := by
refine ⟨?_, ?_, rfl, rfl⟩
· intro eqFn bd ad bv av
  cases h : eqFn bv av <;> cases bd <;> cases ad <;>
    simp only [checkChanWith, specChanClassify, h] <;> rfl
· intro c fuel bd ad bv av
  rfl

/-- C7: on the failing input var A, B int (one value spec declaring two
names) the extractor registers only the last name B; the first name A is
absent from the returned map, against the one-Value-per-name rule. -/
theorem claim_C7_multiname_value_lost :
    aLookup (pkgDecls [[valueAB]]) "A" = Option.none ∧
      aLookup (pkgDecls [[valueAB]]) "B" =
        some (.genDecl .tvar [.valueSpec ["B"] (some (.ident "int")) []]) := by
exact ⟨rfl, rfl⟩

/-- C10: two type declarations whose underlying expressions have the
same AST shape, that shape being neither struct nor interface nor a
plain identifier, always compare as no change, whatever the
subexpressions. -/
theorem claim_C10_other_type_shapes_none (c : DeclChecker) (fuel : Nat)
    (tok tok2 : Token) (bn an : String) (bty aty : Expr)
    (h1 : exprShapeEq bty aty = true) (h2 : otherTypeShape bty = true) :
    c.Check fuel (.genDecl tok [.typeSpec bn bty]) (.genDecl tok2 [.typeSpec an aty]) =
      .ok noChange := by
cases bty <;> cases aty <;>
  simp_all [DeclChecker.Check, declShapeEq, specShapeEq, exprShapeEq, otherTypeShape]

/-- C10 witness: map types with different key and value types still
classify as no change. -/
theorem claim_C10_other_type_shapes_none_witness :
    exprShapeEq (.mapType (.ident "string") (.ident "int"))
        (.mapType (.ident "int") (.ident "bool")) = true ∧
      otherTypeShape (.mapType (.ident "string") (.ident "int")) = true ∧
      chk0.Check 10 mapDeclB mapDeclA = .ok noChange :=
⟨rfl, rfl, claim_C10_other_type_shapes_none chk0 10 .ttype .ttype "M" "M"
  (.mapType (.ident "string") (.ident "int")) (.mapType (.ident "int") (.ident "bool"))
  rfl rfl⟩

/-- RemoveVariadicCompatible on a diff whose only entry is one added
variadic field consumes it with the message "added a variadic
parameter". -/
theorem removeVariadicCompatible_added (binfo ainfo : Info) (ns : List String) (t : Expr) :
    removeVariadicCompatible binfo ainfo ⟨[Field.mk ns (.ellipsis t)], [], []⟩ =
      ("added a variadic parameter", ⟨[], [], []⟩) := rfl

/-- RemoveVariadicCompatible on a diff whose only entry is one modified
pair whose after type is a variadic over a type identical to the before
type consumes it with the message "change parameter to variadic". -/
theorem removeVariadicCompatible_modified (binfo ainfo : Info) (bf : Field)
    (ns : List String) (t : Expr)
    (hid : identicalOpt (binfo.typeOf bf.type) (ainfo.typeOf t) = true) :
    removeVariadicCompatible binfo ainfo ⟨[], [], [(bf, Field.mk ns (.ellipsis t))]⟩ =
      ("change parameter to variadic", ⟨[], [], []⟩) := by
obtain ⟨bns, bty⟩ := bf
simp only [Field.type] at hid
simp [removeVariadicCompatible, Field.type, hid]

/-- C4: the variadic-compatibility exception fires exactly when it is
the sole parameter difference: one added variadic parameter (and nothing
else) is non-breaking "added a variadic parameter"; one modified pair
(and nothing else) whose before type is identical to the after
variadic's element type is non-breaking "change parameter to variadic";
adding a plain parameter is breaking. -/
theorem claim_C4_variadic_exception :
    (∀ (c : DeclChecker) (fuel : Nat) (bp ap : List Field) (ns : List String) (t : Expr),
      diffFieldsWith (fun x y => exprEqual c fuel x y)
          (stripNames bp) (stripNames ap) = ⟨[Field.mk ns (.ellipsis t)], [], []⟩ →
      c.checkFunc fuel bp Option.none ap Option.none =
        .ok (nonBreaking "added a variadic parameter")) ∧
    (∀ (c : DeclChecker) (fuel : Nat) (bp ap : List Field) (bf : Field)
        (ns : List String) (t : Expr),
      diffFieldsWith (fun x y => exprEqual c fuel x y)
          (stripNames bp) (stripNames ap) = ⟨[], [], [(bf, Field.mk ns (.ellipsis t))]⟩ →
      identicalOpt (c.binfo.typeOf bf.type) (c.ainfo.typeOf t) = true →
      c.checkFunc fuel bp Option.none ap Option.none =
        .ok (nonBreaking "change parameter to variadic")) ∧
    chk0.Check 10 fnT fnVariadic = .ok (nonBreaking "change parameter to variadic") ∧
    chk0.Check 10 fnT fnAddedVariadic = .ok (nonBreaking "added a variadic parameter") ∧
    chk0.Check 10 fnT fnAddedPlain = .ok (breaking "parameter types changed") := by
refine ⟨?_, ?_, rfl, rfl, rfl⟩
· intro c fuel bp ap ns t h
  simp only [DeclChecker.checkFunc, checkFuncWith, h, removeVariadicCompatible_added]
  rfl
· intro c fuel bp ap bf ns t h hid
  simp only [DeclChecker.checkFunc, checkFuncWith, h,
    removeVariadicCompatible_modified c.binfo c.ainfo bf ns t hid]
  rfl

/-- C4 witness: the diff shapes of the two promoted examples and the
classifications the claim theorem yields for them. -/
theorem claim_C4_variadic_exception_witness :
    (diffFieldsWith (fun x y => exprEqual chk0 10 x y)
        (stripNames [Field.mk ["a"] (.ident "T")])
        (stripNames [Field.mk ["a"] (.ident "T"), Field.mk ["b"] (.ellipsis (.ident "T"))]) =
      ⟨[Field.mk [] (.ellipsis (.ident "T"))], [], []⟩) ∧
    chk0.checkFunc 10 [Field.mk ["a"] (.ident "T")] Option.none
        [Field.mk ["a"] (.ident "T"), Field.mk ["b"] (.ellipsis (.ident "T"))] Option.none =
      .ok (nonBreaking "added a variadic parameter") ∧
    (diffFieldsWith (fun x y => exprEqual chk0 10 x y)
        (stripNames [Field.mk ["a"] (.ident "T")])
        (stripNames [Field.mk ["a"] (.ellipsis (.ident "T"))]) =
      ⟨[], [], [(Field.mk [] (.ident "T"), Field.mk [] (.ellipsis (.ident "T")))]⟩) ∧
    identicalOpt (chk0.binfo.typeOf (Field.type (Field.mk [] (.ident "T"))))
        (chk0.ainfo.typeOf (.ident "T")) = true ∧
    chk0.checkFunc 10 [Field.mk ["a"] (.ident "T")] Option.none
        [Field.mk ["a"] (.ellipsis (.ident "T"))] Option.none =
      .ok (nonBreaking "change parameter to variadic") :=
⟨rfl,
  claim_C4_variadic_exception.1 chk0 10 [Field.mk ["a"] (.ident "T")]
    [Field.mk ["a"] (.ident "T"), Field.mk ["b"] (.ellipsis (.ident "T"))] [] (.ident "T") rfl,
  rfl, rfl,
  claim_C4_variadic_exception.2.1 chk0 10 [Field.mk ["a"] (.ident "T")]
    [Field.mk ["a"] (.ellipsis (.ident "T"))] (Field.mk [] (.ident "T")) [] (.ident "T")
    rfl rfl⟩

/-- C9 counterexample: a struct field of function type whose parameter
changes between two interface literals.  The nested function comparison
fails to resolve the interface literals ("unknown interface type"), yet
the struct comparison silently discards that failure inside exprEqual
and returns the classification "no change" with no error, so a
comparison failure IS silently dropped. -/
theorem claim_C9_counterexample :
    chk0.checkFunc 9 [Field.mk [] ifaceLit1] Option.none
        [Field.mk [] ifaceLit2] Option.none = .error "unknown interface type" ∧
      chk0.Check 10 structFnLitB structFnLitA = .ok noChange :=
⟨rfl, rfl⟩

/-- C9 amended: a resolution failure of the interface-compatibility
exception at the TOP level of a function-declaration comparison
propagates: checkFunc returns the error, and compareDecls surfaces it as
a diffError tagged with the package name and the declaration pair rather
than a classification.  (Failures inside nested expression equality are
discarded, see the counterexample.) -/
theorem claim_C9_error_propagation :
    (∀ (binfo ainfo : Info) (eqFn : Expr → Expr → Bool)
        (checkI : List Field → List Field → DeclChange)
        (bp ap : List Field) (br ar : Option (List Field)) (e : String),
      removeInterfaceCompatibleWith binfo ainfo checkI
          (removeVariadicCompatible binfo ainfo
            (diffFieldsWith eqFn (stripNames bp) (stripNames ap))).2 = .error e →
      checkFuncWith binfo ainfo eqFn checkI bp br ap ar = .error e) ∧
    (∀ (fuel : Nat) (pkgName : String) (bpkg apkg : Pkg) (a : AList Pkg)
        (id : String) (bDecl aDecl : Decl) (e : String),
      aLookup a pkgName = some apkg →
      bpkg.decls = [(id, bDecl)] →
      aLookup apkg.decls id = some aDecl →
      DeclChecker.Check ⟨bpkg.info, apkg.info⟩ fuel bDecl aDecl = .error e →
      compareDecls fuel [(pkgName, bpkg)] a = .error ⟨e, pkgName, bDecl, aDecl⟩) := by
refine ⟨?_, ?_⟩
· intro binfo ainfo eqFn checkI bp ap br ar e h
  simp only [checkFuncWith, h]
· intro fuel pkgName bpkg apkg a id bDecl aDecl e ha hdecls haid hchk
  simp only [compareDecls, compareOnePkg, ha, hdecls, compareMatched, haid, hchk]

/-- C9 witness: the concrete function-parameter interface-literal change
satisfies the amended theorem's hypotheses, and compareDecls reports the
tagged diffError. -/
theorem claim_C9_error_propagation_witness :
    (removeInterfaceCompatibleWith chk0.binfo chk0.ainfo
        (fun x y => chk0.checkInterface 10 x y)
        (removeVariadicCompatible chk0.binfo chk0.ainfo
          (diffFieldsWith (fun x y => exprEqual chk0 10 x y)
            (stripNames [Field.mk ["a"] ifaceLit1])
            (stripNames [Field.mk ["a"] ifaceLit2]))).2 =
      .error "unknown interface type") ∧
    checkFuncWith chk0.binfo chk0.ainfo (fun x y => exprEqual chk0 10 x y)
        (fun x y => chk0.checkInterface 10 x y)
        [Field.mk ["a"] ifaceLit1] Option.none [Field.mk ["a"] ifaceLit2] Option.none =
      .error "unknown interface type" ∧
    DeclChecker.Check ⟨pkgIntfB.info, pkgIntfA.info⟩ 10 fnIntfB fnIntfA =
      .error "unknown interface type" ∧
    compareDecls 10 [("p", pkgIntfB)] [("p", pkgIntfA)] =
      .error ⟨"unknown interface type", "p", fnIntfB, fnIntfA⟩ :=
⟨rfl,
  claim_C9_error_propagation.1 chk0.binfo chk0.ainfo (fun x y => exprEqual chk0 10 x y)
    (fun x y => chk0.checkInterface 10 x y) [Field.mk ["a"] ifaceLit1]
    [Field.mk ["a"] ifaceLit2] Option.none Option.none "unknown interface type" rfl,
  rfl,
  claim_C9_error_propagation.2 10 "p" pkgIntfB pkgIntfA [("p", pkgIntfA)] "F"
    fnIntfB fnIntfA "unknown interface type" rfl rfl rfl rfl⟩

/-! ### Extractor promotion lemmas (C5) -/

theorem foldl_preserve {α β : Type} (P : α → Prop) (f : α → β → α) :
    ∀ (l : List β) (a : α), (∀ x b, b ∈ l → P x → P (f x b)) → P a → P (l.foldl f a) := by
intro l
induction l with
| nil => intro a _ h; exact h
| cons b rest ih =>
  intro a hstep h
  exact ih (f a b) (fun x b2 hb2 => hstep x b2 (List.mem_cons.mpr (Or.inr hb2)))
    (hstep a b (List.mem_cons.mpr (Or.inl rfl)) h)

theorem register_priv_nodup (st : ExtractState) (id : String) (d : Decl)
    (h : (aKeys st.priv).Nodup) : (aKeys (register st id d).priv).Nodup := by
by_cases he : isExported id = true <;> simp [register, he, h, aKeys_nodup_aInsert]

theorem processSpec_priv_nodup (tok : Token) (st : ExtractState) (s : Spec)
    (h : (aKeys st.priv).Nodup) : (aKeys (processSpec tok st s).priv).Nodup := by
cases s with
| importSpec => exact h
| typeSpec n ty => exact register_priv_nodup st n _ h
| valueSpec names typ values =>
  simp only [processSpec]
  cases lastValueSpec tok names typ values with
  | none => exact h
  | some p => exact register_priv_nodup st p.1 p.2 h

theorem processDecl_priv_nodup (st : ExtractState) (d : Decl)
    (h : (aKeys st.priv).Nodup) : (aKeys (processDecl st d).priv).Nodup := by
cases d with
| genDecl tok specs =>
  exact foldl_preserve (fun st2 => (aKeys st2.priv).Nodup) (processSpec tok) specs st
    (fun x b _ hx => processSpec_priv_nodup tok x b hx) h
| funcDecl recv name params results =>
  by_cases hc : (isExported name && ((funcId recv name).1 == "" ||
      isExported (funcId recv name).1)) = true <;>
    simp [processDecl, hc, h, aKeys_nodup_aInsert]

theorem extractAll_priv_nodup (files : List (List Decl)) :
    (aKeys (extractAll files).priv).Nodup := by
refine foldl_preserve (fun st => (aKeys st.priv).Nodup)
  (fun st file => file.foldl processDecl st) files ⟨[], [], []⟩ ?_ ?_
· intro st file _ hst
  exact foldl_preserve (fun st2 => (aKeys st2.priv).Nodup) processDecl file st
    (fun x d _ hx => processDecl_priv_nodup x d hx) hst
· simp [aKeys]

theorem promoteOne_eq (priv : AList Decl) (decls : AList Decl) (id : String) :
    promoteOne priv decls id =
      priv.foldl (promoteStep id)
        (match aLookup priv id with
          | some d => aInsert decls id d
          | Option.none => decls) := rfl

theorem promoteStep_pres (priv : AList Decl) (id key : String) (val : Decl)
    (hnd : (aKeys priv).Nodup) (hpriv : aLookup priv key = some val) :
    ∀ (acc : AList Decl) (p : String × Decl), p ∈ priv →
      aLookup acc key = some val → aLookup (promoteStep id acc p) key = some val := by
intro acc p hp hacc
by_cases h1 : p.1.length ≤ id.length + 1
· simpa [promoteStep, h1] using hacc
· by_cases h2 : ((id == p.1.take id.length) && isExported (p.1.drop (id.length + 1))) = true
  · simp only [promoteStep, h1, if_false, h2, if_true]
    by_cases hk : p.1 = key
    · have hv : p.2 = val := by
        have := aLookup_of_mem hnd (hk ▸ hp : (key, p.2) ∈ priv)
        rw [this] at hpriv
        exact (Option.some.injEq _ _).mp hpriv.symm |>.symm
      rw [hk, hv]
      exact aLookup_aInsert_self acc key val
    · rw [aLookup_aInsert_ne acc p.1 key p.2 (fun hh => hk hh.symm)]
      exact hacc
  · simpa [promoteStep, h1, h2] using hacc

theorem promoteOne_pres (priv : AList Decl) (acc : AList Decl) (id key : String) (val : Decl)
    (hnd : (aKeys priv).Nodup) (hpriv : aLookup priv key = some val)
    (hacc : aLookup acc key = some val) :
    aLookup (promoteOne priv acc id) key = some val := by
rw [promoteOne_eq]
refine foldl_preserve (fun m => aLookup m key = some val) (promoteStep id) priv _ ?_ ?_
· intro x p hp hx
  exact promoteStep_pres priv id key val hnd hpriv x p hp hx
· cases hb : aLookup priv id with
  | none => simpa using hacc
  | some d =>
    by_cases hk : key = id
    · subst hk
      rw [hb] at hpriv
      have hv : d = val := (Option.some.injEq _ _).mp hpriv
      rw [hv]
      exact aLookup_aInsert_self acc key val
    · rw [aLookup_aInsert_ne acc id key d hk]
      exact hacc

theorem promoteOne_self (priv : AList Decl) (acc : AList Decl) (id : String) (val : Decl)
    (hpriv : aLookup priv id = some val) :
    aLookup (promoteOne priv acc id) id = some val := by
rw [promoteOne_eq, hpriv]
refine foldl_preserve (fun m => aLookup m id = some val) (promoteStep id) priv _ ?_ ?_
· intro x p _ hx
  by_cases h1 : p.1.length ≤ id.length + 1
  · simpa [promoteStep, h1] using hx
  · by_cases h2 : ((id == p.1.take id.length) && isExported (p.1.drop (id.length + 1))) = true
    · simp only [promoteStep, h1, if_false, h2, if_true]
      have hk : p.1 ≠ id := by
        intro hh
        apply h1
        rw [hh]
        exact Nat.le_succ id.length
      rw [aLookup_aInsert_ne x p.1 id p.2 (fun hh => hk hh.symm)]
      exact hx
    · simpa [promoteStep, h1, h2] using hx
· exact aLookup_aInsert_self acc id val

theorem promoteInner_establish (id rid : String) (m : Decl)
    (hlen : ¬(rid.length ≤ id.length + 1))
    (htake : (id == rid.take id.length) = true)
    (hexp : isExported (rid.drop (id.length + 1)) = true) :
    ∀ (l : AList Decl) (acc : AList Decl),
      (∀ p, p ∈ l → p.1 = rid → p.2 = m) →
      ((rid, m) ∈ l ∨ aLookup acc rid = some m) →
      aLookup (l.foldl (promoteStep id) acc) rid = some m := by
intro l
induction l with
| nil =>
  intro acc _ h
  rcases h with h | h
  · simp at h
  · exact h
| cons p rest ih =>
  intro acc hvals h
  have hvals2 : ∀ q, q ∈ rest → q.1 = rid → q.2 = m :=
    fun q hq => hvals q (List.mem_cons.mpr (Or.inr hq))
  rcases h with h | h
  · rcases List.mem_cons.mp h with h | h
    · have hacc2 : aLookup (promoteStep id acc p) rid = some m := by
        rw [← h]
        simp only [promoteStep, hlen, if_false, htake, hexp, Bool.and_self, if_true]
        exact aLookup_aInsert_self acc rid m
      exact ih (promoteStep id acc p) hvals2 (Or.inr hacc2)
    · exact ih (promoteStep id acc p) hvals2 (Or.inl h)
  · have hacc2 : aLookup (promoteStep id acc p) rid = some m := by
      by_cases h1 : p.1.length ≤ id.length + 1
      · simpa [promoteStep, h1] using h
      · by_cases h2 : ((id == p.1.take id.length) &&
            isExported (p.1.drop (id.length + 1))) = true
        · simp only [promoteStep, h1, if_false, h2, if_true]
          by_cases hk : p.1 = rid
          · have hv : p.2 = m := hvals p (List.mem_cons.mpr (Or.inl rfl)) hk
            rw [hk, hv]
            exact aLookup_aInsert_self acc rid m
          · rw [aLookup_aInsert_ne acc p.1 rid p.2 (fun hh => hk hh.symm)]
            exact h
        · simpa [promoteStep, h1, h2] using h
    exact ih (promoteStep id acc p) hvals2 (Or.inr hacc2)

theorem promoteOne_method (priv : AList Decl) (acc : AList Decl) (id rid : String) (m : Decl)
    (hnd : (aKeys priv).Nodup) (hpriv : aLookup priv rid = some m)
    (hlen : ¬(rid.length ≤ id.length + 1))
    (htake : (id == rid.take id.length) = true)
    (hexp : isExported (rid.drop (id.length + 1)) = true) :
    aLookup (promoteOne priv acc id) rid = some m := by
rw [promoteOne_eq]
refine promoteInner_establish id rid m hlen htake hexp priv _ ?_ (Or.inl (mem_of_aLookup hpriv))
intro p hp hk
have := aLookup_of_mem hnd (hk ▸ hp : (rid, p.2) ∈ priv)
rw [this] at hpriv
exact (Option.some.injEq _ _).mp hpriv.symm |>.symm

theorem pass2_lookup_of_returned (priv : AList Decl) (id0 : String) (val : Decl)
    (hnd : (aKeys priv).Nodup) (hpriv : aLookup priv id0 = some val) :
    ∀ (ids : List String) (acc : AList Decl), id0 ∈ ids →
      aLookup (ids.foldl (promoteOne priv) acc) id0 = some val := by
intro ids
induction ids with
| nil => intro acc h; simp at h
| cons i rest ih =>
  intro acc hmem
  rcases List.mem_cons.mp hmem with h | h
  · subst h
    exact foldl_preserve (fun mm => aLookup mm id0 = some val) (promoteOne priv) rest _
      (fun x i2 _ hx => promoteOne_pres priv x i2 id0 val hnd hpriv hx)
      (promoteOne_self priv acc id0 val hpriv)
  · exact ih (promoteOne priv acc i) h

theorem pass2_lookup_of_method (priv : AList Decl) (id0 rid : String) (m : Decl)
    (hnd : (aKeys priv).Nodup) (hpriv : aLookup priv rid = some m)
    (hlen : ¬(rid.length ≤ id0.length + 1))
    (htake : (id0 == rid.take id0.length) = true)
    (hexp : isExported (rid.drop (id0.length + 1)) = true) :
    ∀ (ids : List String) (acc : AList Decl), id0 ∈ ids →
      aLookup (ids.foldl (promoteOne priv) acc) rid = some m := by
intro ids
induction ids with
| nil => intro acc h; simp at h
| cons i rest ih =>
  intro acc hmem
  rcases List.mem_cons.mp hmem with h | h
  · subst h
    exact foldl_preserve (fun mm => aLookup mm rid = some m) (promoteOne priv) rest _
      (fun x i2 _ hx => promoteOne_pres priv x i2 rid m hnd hpriv hx)
      (promoteOne_method priv acc id0 rid m hnd hpriv hlen htake hexp)
  · exact ih (promoteOne priv acc i) h

/-- C5: the extractor promotes unexported declarations reachable through
exported function results: any returned private type name is promoted
into the compared map, and so is any private method identifier over such
a name with an exported method part; consequently the private struct
returned by a public function is compared, a later-added field being
non-breaking and a later-removed field breaking. -/
theorem claim_C5_reachability_promotion :
    (∀ (files : List (List Decl)) (id : String) (d : Decl),
      id ∈ (extractAll files).returned →
      aLookup (extractAll files).priv id = some d →
      aLookup (pkgDecls files) id = some d) ∧
    (∀ (files : List (List Decl)) (id rid : String) (m : Decl),
      id ∈ (extractAll files).returned →
      aLookup (extractAll files).priv rid = some m →
      ¬(rid.length ≤ id.length + 1) →
      (id == rid.take id.length) = true →
      isExported (rid.drop (id.length + 1)) = true →
      aLookup (pkgDecls files) rid = some m) ∧
    aLookup (pkgDecls [[privStructB, pubFn]]) "s" = some privStructB ∧
    aLookup (pkgDecls [[privStructA, pubFn]]) "s" = some privStructA ∧
    chk0.Check 10 privStructB privStructA = .ok (nonBreaking "members added") ∧
    chk0.Check 10 privStructA privStructB = .ok (breaking "members removed") := by
refine ⟨?_, ?_, rfl, rfl, rfl, rfl⟩
· intro files id d hmem hpriv
  exact pass2_lookup_of_returned (extractAll files).priv id d
    (extractAll_priv_nodup files) hpriv (extractAll files).returned
    (extractAll files).decls hmem
· intro files id rid m hmem hpriv hlen htake hexp
  exact pass2_lookup_of_method (extractAll files).priv id rid m
    (extractAll_priv_nodup files) hpriv hlen htake hexp (extractAll files).returned
    (extractAll files).decls hmem

/-- C5 witness: on the concrete files the returned set holds s, the
private map holds s and the exported method s.M, and both are promoted
into the compared map. -/
theorem claim_C5_reachability_promotion_witness :
    ("s" ∈ (extractAll [[privStructB, pubFn,
        Decl.funcDecl (some [Field.mk ["r"] (.ident "s")]) "M" [] Option.none]]).returned) ∧
    aLookup (extractAll [[privStructB, pubFn,
        Decl.funcDecl (some [Field.mk ["r"] (.ident "s")]) "M" [] Option.none]]).priv "s.M" =
      some (Decl.funcDecl (some [Field.mk ["r"] (.ident "s")]) "M" [] Option.none) ∧
    aLookup (pkgDecls [[privStructB, pubFn,
        Decl.funcDecl (some [Field.mk ["r"] (.ident "s")]) "M" [] Option.none]]) "s" =
      some privStructB ∧
    aLookup (pkgDecls [[privStructB, pubFn,
        Decl.funcDecl (some [Field.mk ["r"] (.ident "s")]) "M" [] Option.none]]) "s.M" =
      some (Decl.funcDecl (some [Field.mk ["r"] (.ident "s")]) "M" [] Option.none) := by
refine ⟨by decide, rfl, ?_, ?_⟩
· exact claim_C5_reachability_promotion.1 _ "s" privStructB (by decide) rfl
· exact claim_C5_reachability_promotion.2.1 _ "s" "s.M"
    (Decl.funcDecl (some [Field.mk ["r"] (.ident "s")]) "M" [] Option.none)
    (by decide) rfl (by decide) (by decide) (by decide)

/-! ### Field-diff partition lemmas (C8) -/

theorem diffLoop_rem (eqFn : Expr → Expr → Bool) :
    ∀ (bs : List Field) (i : Nat) (m : AList Field),
      (diffLoop eqFn bs i m).2 = (keysFrom bs i).foldl aDelete m := by
intro bs
induction bs with
| nil => intro i m; rfl
| cons bf rest ih =>
  intro i m
  cases hl : aLookup m (fieldKey bf i) with
  | none =>
    simp only [diffLoop, keysFrom, List.foldl_cons, hl]
    rw [aDelete_eq_of_none m _ hl]
    exact ih (i + 1) m
  | some af =>
    simp only [diffLoop, keysFrom, List.foldl_cons, hl]
    cases heq : eqFn bf.type af.type <;> simp only [heq, if_true, if_false,
      Bool.false_eq_true] <;> exact ih (i + 1) (aDelete m (fieldKey bf i))

theorem foldl_aDelete_filter {α : Type} :
    ∀ (ks : List String) (m : AList α),
      ks.foldl aDelete m = m.filter (fun p => !ks.contains p.1) := by
intro ks
induction ks with
| nil => intro m; simp
| cons k rest ih =>
  intro m
  simp only [List.foldl_cons]
  rw [ih (aDelete m k)]
  simp only [aDelete]
  rw [List.filter_filter]
  apply List.filter_congr
  intro p _
  simp only [List.contains_cons, Bool.not_or, bne]
  rw [Bool.and_comm]

theorem diffLoop_spec (eqFn : Expr → Expr → Bool) :
    ∀ (bs : List Field) (i : Nat) (mcur morig : AList Field),
      (keysFrom bs i).Nodup →
      (∀ k, k ∈ keysFrom bs i → aLookup mcur k = aLookup morig k) →
      (diffLoop eqFn bs i mcur).1.removed = (specDiffClassify eqFn morig bs i).1 ∧
        (diffLoop eqFn bs i mcur).1.modified = (specDiffClassify eqFn morig bs i).2 := by
intro bs
induction bs with
| nil => intro i mcur morig _ _; exact ⟨rfl, rfl⟩
| cons bf rest ih =>
  intro i mcur morig hnd hagree
  have hkey : aLookup mcur (fieldKey bf i) = aLookup morig (fieldKey bf i) :=
    hagree _ (by simp [keysFrom])
  simp only [keysFrom, List.nodup_cons] at hnd
  cases hl : aLookup morig (fieldKey bf i) with
  | none =>
    have hl2 : aLookup mcur (fieldKey bf i) = Option.none := by rw [hkey, hl]
    have hrest := ih (i + 1) mcur morig hnd.2
      (fun k hk => hagree k (by simp [keysFrom, hk]))
    simp only [diffLoop, specDiffClassify, hl, hl2]
    exact ⟨by rw [hrest.1], by rw [hrest.2]⟩
  | some af =>
    have hl2 : aLookup mcur (fieldKey bf i) = some af := by rw [hkey, hl]
    have hagree2 : ∀ k, k ∈ keysFrom rest (i + 1) →
        aLookup (aDelete mcur (fieldKey bf i)) k = aLookup morig k := by
      intro k hk
      have hne : k ≠ fieldKey bf i := fun hh => hnd.1 (hh ▸ hk)
      rw [aLookup_aDelete_ne mcur (fieldKey bf i) k hne]
      exact hagree k (by simp [keysFrom, hk])
    have hrest := ih (i + 1) (aDelete mcur (fieldKey bf i)) morig hnd.2 hagree2
    simp only [diffLoop, specDiffClassify, hl, hl2]
    cases heq : eqFn bf.type af.type <;>
      simp [heq, hrest.1, hrest.2]

theorem diffLoop_length (eqFn : Expr → Expr → Bool) :
    ∀ (bs : List Field) (i : Nat) (m : AList Field), (aKeys m).Nodup →
      m.length + (diffLoop eqFn bs i m).1.removed.length =
        bs.length + (diffLoop eqFn bs i m).2.length := by
intro bs
induction bs with
| nil => intro i m _; simp [diffLoop]
| cons bf rest ih =>
  intro i m hnd
  cases hl : aLookup m (fieldKey bf i) with
  | none =>
    have hih := ih (i + 1) m hnd
    simp only [diffLoop, hl, List.length_cons]
    omega
  | some af =>
    have hdel := aDelete_length m (fieldKey bf i) af hnd hl
    have hnd2 := aKeys_nodup_aDelete m (fieldKey bf i) hnd
    have hih := ih (i + 1) (aDelete m (fieldKey bf i)) hnd2
    simp only [diffLoop, hl, List.length_cons]
    cases heq : eqFn bf.type af.type <;>
      simp only [heq, if_true, if_false, Bool.false_eq_true] <;> omega

theorem buildAfterMap_go_nodup :
    ∀ (fs : List Field) (i : Nat) (m : AList Field),
      (aKeys m).Nodup → (aKeys (buildAfterMap.go fs i m)).Nodup := by
intro fs
induction fs with
| nil => intro i m h; exact h
| cons f rest ih =>
  intro i m h
  exact ih (i + 1) _ (aKeys_nodup_aInsert m (fieldKey f i) f h)

theorem buildAfterMap_nodup (after : List Field) :
    (aKeys (buildAfterMap after)).Nodup :=
buildAfterMap_go_nodup after 0 [] (by simp [aKeys])

/-- C8: under distinct before keys, the field diff is exactly the
claim's per-entry description against the after map (removed: keys
finding no entry, modified: keys finding a differently typed entry,
added: exactly the unconsumed after entries), the after map's keys are
distinct, and the sizes account for every matched key exactly once. -/
theorem claim_C8_field_diff_partition (eqFn : Expr → Expr → Bool)
    (before after : List Field) (hnd : (keysFrom before 0).Nodup) :
    (diffFieldsWith eqFn before after).removed =
        (specDiffClassify eqFn (buildAfterMap after) before 0).1 ∧
      (diffFieldsWith eqFn before after).modified =
        (specDiffClassify eqFn (buildAfterMap after) before 0).2 ∧
      (diffFieldsWith eqFn before after).added =
        specAdded (buildAfterMap after) (keysFrom before 0) ∧
      (aKeys (buildAfterMap after)).Nodup ∧
      (buildAfterMap after).length + (diffFieldsWith eqFn before after).removed.length =
        before.length + (diffFieldsWith eqFn before after).added.length := by
have hspec := diffLoop_spec eqFn before 0 (buildAfterMap after) (buildAfterMap after)
  hnd (fun _ _ => rfl)
have hrem := diffLoop_rem eqFn before 0 (buildAfterMap after)
have hlen := diffLoop_length eqFn before 0 (buildAfterMap after) (buildAfterMap_nodup after)
have hadded : (diffFieldsWith eqFn before after).added =
    specAdded (buildAfterMap after) (keysFrom before 0) := by
  show (diffLoop eqFn before 0 (buildAfterMap after)).2.map (fun p => p.2) = _
  rw [hrem, foldl_aDelete_filter]
  rfl
have haddlen : (diffFieldsWith eqFn before after).added.length =
    (diffLoop eqFn before 0 (buildAfterMap after)).2.length := by
  show ((diffLoop eqFn before 0 (buildAfterMap after)).2.map (fun p => p.2)).length = _
  exact List.length_map _ _
refine ⟨hspec.1, hspec.2, hadded, buildAfterMap_nodup after, ?_⟩
have hremlen : (diffFieldsWith eqFn before after).removed.length =
    (diffLoop eqFn before 0 (buildAfterMap after)).1.removed.length := rfl
omega

/-- C8 witness: a concrete pair of field lists with distinct keys, and
the removed, modified and added sets the theorem characterizes. -/
theorem claim_C8_field_diff_partition_witness :
    (keysFrom [Field.mk ["X"] (.ident "int"), Field.mk ["Y"] (.ident "int")] 0).Nodup ∧
      (diffFieldsWith (fun x y => exprEqual chk0 1 x y)
          [Field.mk ["X"] (.ident "int"), Field.mk ["Y"] (.ident "int")]
          [Field.mk ["Y"] (.ident "string"), Field.mk ["Z"] (.ident "int")]).removed =
        (specDiffClassify (fun x y => exprEqual chk0 1 x y)
          (buildAfterMap [Field.mk ["Y"] (.ident "string"), Field.mk ["Z"] (.ident "int")])
          [Field.mk ["X"] (.ident "int"), Field.mk ["Y"] (.ident "int")] 0).1 :=
⟨by decide,
  (claim_C8_field_diff_partition (fun x y => exprEqual chk0 1 x y)
    [Field.mk ["X"] (.ident "int"), Field.mk ["Y"] (.ident "int")]
    [Field.mk ["Y"] (.ident "string"), Field.mk ["Z"] (.ident "int")] (by decide)).1⟩

end Abicheck
